import Mathlib

/-!
Verification of the asynchronous document-processing core of the pdfkar
repository, shallowly embedded in Lean 4.

Sources embedded here:
- src/src/types/index.ts (record shapes and status vocabularies);
- db.updateDocumentStatus, db.getNextJob, db.enqueueJob, db.activatePrompt
  (the database helper layer, found at src/src/hooks/useRealTimeUpdates.ts
  lines 281 to 412);
- ReviewInterface.onSubmit (src/src/components/review/ReviewInterface.tsx,
  lines 90 to 147);
- the upload loop of useDocuments.uploadMutation
  (src/src/hooks/useDocuments.ts, lines 18 to 72).

Timestamps are modelled as natural numbers; the current wall-clock time is
passed explicitly wherever the source calls new Date().  Ids are natural
numbers.  Stores (database tables) are lists of records in row order.
-/

namespace Pdfkar

/-- Document.status vocabulary from src/src/types/index.ts. -/
inductive DocStatus where
  | queued
  | processing
  | awaiting_review
  | completed
  | failed
  deriving DecidableEq, Repr

/-- JobQueue.status vocabulary from src/src/types/index.ts. -/
inductive JobStatus where
  | pending
  | processing
  | completed
  | failed
  deriving DecidableEq, Repr

/-- Prompt.status vocabulary from src/src/types/index.ts. -/
inductive PromptStatus where
  | draft
  | active
  | archived
  deriving DecidableEq, Repr

/-- Document record, after the Document interface in src/src/types/index.ts.
The nullable timestamp processed_at and the nullable confidence_score are
options; the optional foreign keys building_id and revision_type_id are
options as well. -/
structure Document where
  id : Nat
  filename : String
  file_path : String
  document_type : Option String
  status : DocStatus
  uploaded_by : Nat
  building_id : Option Nat
  revision_type_id : Option Nat
  created_at : Nat
  updated_at : Nat
  processed_at : Option Nat
  file_size : Nat
  confidence_score : Option Nat
  deriving DecidableEq, Repr

/-- Job record, after the JobQueue interface in src/src/types/index.ts,
together with the started_at and completed_at columns of the job_queue
table declared in the schema. The payload is opaque to the queue and is
modelled as a string. -/
structure Job where
  id : Nat
  document_id : Nat
  job_type : String
  payload : String
  status : JobStatus
  attempts : Nat
  max_attempts : Nat
  created_at : Nat
  scheduled_for : Nat
  started_at : Option Nat
  completed_at : Option Nat
  error_message : Option String
  deriving DecidableEq, Repr

/-- Prompt record, after the Prompt interface in src/src/types/index.ts.
The model_parameters JSON blob is opaque and modelled as a string. -/
structure Prompt where
  id : Nat
  prompt_name : String
  version : Nat
  prompt_text : String
  model_parameters : String
  status : PromptStatus
  changelog : String
  created_at : Nat
  updated_at : Nat
  created_by : Nat
  deriving DecidableEq, Repr

/-- Bounding box shape from src/src/types/index.ts. -/
structure BoundingBox where
  page : Nat
  left : Nat
  top : Nat
  width : Nat
  height : Nat
  deriving DecidableEq, Repr

/-- ExtractedData record, after the interface in src/src/types/index.ts.
The confidence score in [0,1] is kept opaque as a natural number because no
embedded operation inspects it numerically. -/
structure ExtractedData where
  id : Nat
  document_id : Nat
  field_name : String
  field_value : String
  confidence_score : Nat
  bounding_box : BoundingBox
  created_at : Nat
  deriving DecidableEq, Repr

/-- AIFeedbackLog row, after the interface in src/src/types/index.ts (the
table written by db.logAIFeedback). -/
structure AIFeedbackLog where
  document_id : Nat
  field_name : String
  ai_extracted_value : String
  human_corrected_value : String
  reviewer_id : Nat
  deriving DecidableEq, Repr

/-- Details object of the audit entry written by ReviewInterface.onSubmit:
changes_made counts the corrected fields and filename echoes the document. -/
structure AuditDetails where
  changes_made : Nat
  filename : String
  deriving DecidableEq, Repr

/-- AuditLog row, after the interface in src/src/types/index.ts, with the
details field specialised to the shape the review flow writes. -/
structure AuditLog where
  user_id : Nat
  action : String
  target_resource_type : String
  target_resource_id : Nat
  details : AuditDetails
  deriving DecidableEq, Repr

/-- Effect of db.updateDocumentStatus (useRealTimeUpdates.ts lines 281-299)
on one matching row, for a call that passes no metadata argument: the update
object holds the new status and updated_at = now, and additionally
processed_at = now exactly when the new status is completed or failed.  No
other column appears in the update object, and the previous status of the
row is never consulted. -/
def updateDocumentStatusDoc (now : Nat) (s : DocStatus) (d : Document) : Document :=
  { d with
    status := s
    updated_at := now
    processed_at :=
      if s = DocStatus.completed ∨ s = DocStatus.failed then some now else d.processed_at }

/-- db.updateDocumentStatus applied to the documents table: the update is
filtered by eq on the id column, so exactly the rows whose id matches are
rewritten and every other row is untouched. -/
def updateDocumentStatus (docs : List Document) (id : Nat) (s : DocStatus) (now : Nat) :
    List Document :=
  docs.map (fun d => if d.id = id then updateDocumentStatusDoc now s d else d)

/-- Row filter of db.getNextJob (useRealTimeUpdates.ts lines 315-325):
status equals pending, scheduled_for at most now, and attempts below the
row's max_attempts column (the source writes the attempts bound as
lt attempts, rpc max_attempts, which denotes the per-row comparison
attempts < max_attempts). -/
def jobEligible (now : Nat) (j : Job) : Bool :=
  j.status = JobStatus.pending && j.scheduled_for ≤ now && j.attempts < j.max_attempts

/-- Fold step selecting the row with the smallest created_at, keeping the
earlier row on ties, matching order by created_at ascending with limit 1. -/
def olderJob : Option Job → Job → Option Job
  | none, j => some j
  | some k, j => if j.created_at < k.created_at then some j else some k

/-- db.getNextJob: a select over the job_queue table that filters by
jobEligible, orders by created_at ascending and takes a single row; single
on an empty result is an error, modelled as none. -/
def getNextJob (jobs : List Job) (now : Nat) : Option Job :=
  (jobs.filter (jobEligible now)).foldl olderJob none

/-- One whole call to db.getNextJob, together with its effect on the
job_queue table.  The source issues only a select: no update statement of
any kind accompanies it, so the table after the call is the table before
the call. -/
def getNextJobCall (jobs : List Job) (now : Nat) : Option Job × List Job :=
  (getNextJob jobs now, jobs)

/-- Combined result of ReviewInterface.onSubmit: the ai_feedback_log rows it
inserts, the documents table after its status update, and the audit entry it
writes. -/
structure ReviewResult where
  feedback : List AIFeedbackLog
  docs : List Document
  audit : AuditLog
  deriving DecidableEq, Repr

/-- ReviewInterface.onSubmit (ReviewInterface.tsx lines 90-147).  The form
data maps each field name to the submitted text.  The handler collects, for
every extracted field whose submitted value differs from the stored
field_value, one change entry; inserts one ai_feedback_log row per change
with ai value the stored value and human value the submitted one; calls
db.updateDocumentStatus with status completed; and writes one audit entry
with action DOCUMENT_REVIEWED whose details carry the number of changes.
The handler never reads the document's status: no precondition is checked
before any of these writes. -/
def onSubmit (docs : List Document) (doc : Document) (extracted : List ExtractedData)
    (data : String → String) (reviewerId : Nat) (now : Nat) : ReviewResult :=
  let changes := extracted.filter (fun f => data f.field_name != f.field_value)
  { feedback := changes.map (fun f =>
      { document_id := doc.id
        field_name := f.field_name
        ai_extracted_value := f.field_value
        human_corrected_value := data f.field_name
        reviewer_id := reviewerId })
    docs := updateDocumentStatus docs doc.id DocStatus.completed now
    audit := { user_id := reviewerId
               action := "DOCUMENT_REVIEWED"
               target_resource_type := "document"
               target_resource_id := doc.id
               details := { changes_made := changes.length, filename := doc.filename } } }

/-- db.enqueueJob (useRealTimeUpdates.ts lines 302-313): inserts the given
job fields with attempts forced to 0 and created_at and scheduled_for both
set to now.  The row id is assigned by the database and passed in here. -/
def enqueueJob (rowId document_id : Nat) (job_type payload : String) (status : JobStatus)
    (max_attempts now : Nat) : Job :=
  { id := rowId
    document_id := document_id
    job_type := job_type
    payload := payload
    status := status
    attempts := 0
    max_attempts := max_attempts
    created_at := now
    scheduled_for := now
    started_at := none
    completed_at := none
    error_message := none }

/-- One file of a batch upload, together with the outcomes of the three
external calls the loop body makes for it: uploadFile (none models a throw),
db.createDocument (none models an error result, some the id the database
assigns), and db.enqueueJob (false models a throw).  The row id for the job
insert is carried along. -/
structure FileSpec where
  name : String
  size : Nat
  uploadResult : Option String
  createResult : Option Nat
  enqueueOk : Bool
  jobRowId : Nat
  deriving DecidableEq, Repr

/-- Everything a batch upload produces: documents and jobs inserted into the
database, the results array the mutation returns, and the file names whose
iteration hit the catch block (one error toast each). -/
structure UploadOutcome where
  docs : List Document
  jobs : List Job
  results : List Document
  failures : List String
  deriving DecidableEq, Repr

/-- The document record the upload loop inserts for one file
(useDocuments.ts lines 29-37): status queued, the storage path from
uploadFile, the uploader and optional metadata from the call. -/
def mkUploadDoc (userId now : Nat) (bid rid : Option Nat) (f : FileSpec) (path : String)
    (docId : Nat) : Document :=
  { id := docId
    filename := f.name
    file_path := path
    document_type := none
    status := DocStatus.queued
    uploaded_by := userId
    building_id := bid
    revision_type_id := rid
    created_at := now
    updated_at := now
    processed_at := none
    file_size := f.size
    confidence_score := none }

/-- Body of the upload loop for one file (useDocuments.ts lines 23-60).  The
whole body sits in a try block whose catch only logs and toasts, so a throw
at any of the three calls ends this iteration and the loop moves on.  A
throw in uploadFile or an error from createDocument leaves no document and
no job; a throw in enqueueJob happens after the document insert, so the
document row exists but joins neither the results nor the job table. -/
def processOneFile (userId now : Nat) (bid rid : Option Nat) (f : FileSpec) : UploadOutcome :=
  match f.uploadResult with
  | none => { docs := [], jobs := [], results := [], failures := [f.name] }
  | some path =>
    match f.createResult with
    | none => { docs := [], jobs := [], results := [], failures := [f.name] }
    | some docId =>
      let doc := mkUploadDoc userId now bid rid f path docId
      if f.enqueueOk then
        { docs := [doc]
          jobs := [enqueueJob f.jobRowId docId "document_processing" f.name
            JobStatus.pending 3 now]
          results := [doc]
          failures := [] }
      else
        { docs := [doc], jobs := [], results := [], failures := [f.name] }

/-- The whole batch loop of useDocuments.uploadMutation: the files are
processed in order and their per-file outcomes concatenated; no failure
stops the iteration. -/
def uploadFiles (userId now : Nat) (bid rid : Option Nat) : List FileSpec → UploadOutcome
  | [] => { docs := [], jobs := [], results := [], failures := [] }
  | f :: rest =>
    let o := processOneFile userId now bid rid f
    let r := uploadFiles userId now bid rid rest
    { docs := o.docs ++ r.docs
      jobs := o.jobs ++ r.jobs
      results := o.results ++ r.results
      failures := o.failures ++ r.failures }

/-- Row predicate: this prompt row is the active version of the given name. -/
def activeFor (name : String) (p : Prompt) : Bool :=
  decide (p.prompt_name = name ∧ p.status = PromptStatus.active)

/-- Row effect of the first update of db.activatePrompt: a row with the
given prompt_name and status active is set to archived, any other row is
untouched. -/
def archiveStep (name : String) (p : Prompt) : Prompt :=
  if p.prompt_name = name ∧ p.status = PromptStatus.active
  then { p with status := PromptStatus.archived } else p

/-- Row effect of the second update of db.activatePrompt: the row with the
given id is set to active with updated_at now; the filter is by id alone. -/
def activateStep (id now : Nat) (p : Prompt) : Prompt :=
  if p.id = id then { p with status := PromptStatus.active, updated_at := now } else p

/-- db.activatePrompt (useRealTimeUpdates.ts lines 357-373), two sequential
updates over the prompts table: first every active row of the given name is
archived, then the row with the given id is activated. -/
def activatePrompt (prompts : List Prompt) (id : Nat) (name : String) (now : Nat) :
    List Prompt :=
  (prompts.map (archiveStep name)).map (activateStep id now)

/-- Modelled from the spec: the retry backoff of the job queue is missing
from the repository's files (the worker lives in external n8n workflows;
only the job_queue schema and the enqueue side are in src).  The spec gives
backoff as exponential with a fixed base and a cap, base times 2 to the
attempts, capped. -/
def backoff (base cap a : Nat) : Nat :=
  min (base * 2 ^ a) cap

/-- Modelled from the spec: fail(job_id, error_message) of the job queue is
missing from the repository's files (the worker lives in external n8n
workflows).  Following section 4.1 of the spec: attempts += 1; when the new
attempts reach max_attempts the job becomes failed (dead-letter, with
completed_at set per the section 3 invariant) and the owning document is
moved to failed through the document lifecycle, embedded here by the
repository's own db.updateDocumentStatus; otherwise the job reverts to
pending with scheduled_for = now + backoff(attempts).  The error message is
recorded in both branches. -/
def fail (now base cap : Nat) (msg : String) (j : Job) (docs : List Document) :
    Job × List Document :=
  let a := j.attempts + 1
  if j.max_attempts ≤ a then
    ({ j with
        attempts := a
        status := JobStatus.failed
        completed_at := some now
        error_message := some msg },
      updateDocumentStatus docs j.document_id DocStatus.failed now)
  else
    ({ j with
        attempts := a
        status := JobStatus.pending
        scheduled_for := now + backoff base cap a
        error_message := some msg },
      docs)

/-- Document invariant of section 3 of the spec: processed_at is set exactly
when the status is completed or failed. -/
def processedAtInv (d : Document) : Prop :=
  d.processed_at.isSome = true ↔ (d.status = DocStatus.completed ∨ d.status = DocStatus.failed)

instance (d : Document) : Decidable (processedAtInv d) := by
  unfold processedAtInv; infer_instance

/-- Sample eligible pending job: the oldest of the eligible rows below. -/
def jobOld : Job :=
  { id := 7, document_id := 1, job_type := "document_processing", payload := "a.pdf"
    status := JobStatus.pending, attempts := 0, max_attempts := 3
    created_at := 1, scheduled_for := 0, started_at := none, completed_at := none
    error_message := none }

/-- Sample eligible pending job created later than jobOld. -/
def jobNewer : Job :=
  { jobOld with id := 8, document_id := 2, created_at := 2 }

/-- Sample pending job not yet due at time 5. -/
def jobLate : Job :=
  { jobOld with id := 9, document_id := 3, scheduled_for := 9 }

/-- Sample pending job with its attempt budget exhausted. -/
def jobSpent : Job :=
  { jobOld with id := 10, document_id := 4, attempts := 3 }

/-- Sample job already completed. -/
def jobDone : Job :=
  { jobOld with
    id := 11
    document_id := 5
    status := JobStatus.completed
    completed_at := some 2 }

/-- Sample processing job one failure away from its attempt budget. -/
def jobAlmostSpent : Job :=
  { jobOld with
    id := 12
    document_id := 6
    status := JobStatus.processing
    attempts := 2
    started_at := some 3 }

/-- Sample document in the terminal completed state, processed_at set. -/
def completedDoc : Document :=
  { id := 1, filename := "report.pdf", file_path := "p/report.pdf"
    document_type := none, status := DocStatus.completed, uploaded_by := 4
    building_id := none, revision_type_id := none, created_at := 1, updated_at := 2
    processed_at := some 3, file_size := 100, confidence_score := none }

/-- Sample document owned by jobAlmostSpent, mid-processing. -/
def processingDoc : Document :=
  { completedDoc with id := 6, status := DocStatus.processing, processed_at := none }

/-- Sample document awaiting human review. -/
def awaitingDoc : Document :=
  { completedDoc with id := 2, status := DocStatus.awaiting_review, processed_at := none }

/-- Sample extracted field with stored value x. -/
def fieldA : ExtractedData :=
  { id := 21, document_id := 1, field_name := "a", field_value := "x"
    confidence_score := 90, bounding_box := ⟨1, 0, 0, 10, 10⟩, created_at := 2 }

/-- Sample upload batch of three files whose second upload throws. -/
def threeFiles : List FileSpec :=
  [ { name := "f1", size := 10, uploadResult := some "p1", createResult := some 31,
      enqueueOk := true, jobRowId := 41 },
    { name := "f2", size := 20, uploadResult := none, createResult := some 32,
      enqueueOk := true, jobRowId := 42 },
    { name := "f3", size := 30, uploadResult := some "p3", createResult := some 33,
      enqueueOk := true, jobRowId := 43 } ]

/-- Sample prompt store: v1 active and v2 draft of one name, plus an active
version of an unrelated name. -/
def promptV1 : Prompt :=
  { id := 51, prompt_name := "extract_review_report_data", version := 1
    prompt_text := "t1", model_parameters := "m", status := PromptStatus.active
    changelog := "c1", created_at := 1, updated_at := 1, created_by := 4 }

/-- Sample draft version 2 of the same prompt name as promptV1. -/
def promptV2 : Prompt :=
  { promptV1 with
    id := 52
    version := 2
    prompt_text := "t2"
    status := PromptStatus.draft
    created_at := 2
    updated_at := 2 }

/-- Sample active prompt of an unrelated name. -/
def promptOther : Prompt :=
  { promptV1 with id := 53, prompt_name := "classify_document", prompt_text := "t3" }

/-!
Theorems.  Each claim of the specification review is settled by exactly one
theorem below; supporting lemmas carry no claim name.
-/

/-- Claim C1.  The claim states that two concurrent callers of claimNext
(db.getNextJob) never both receive the same job because the claim is an
atomic conditional update.  The code refutes this: db.getNextJob issues only
a select and performs no update at all, so the job table after a call is the
table before it, and a second caller running after (or interleaved with) the
first receives the very same row.  Here both of two successive calls on the
same table return the job with id 7. -/
theorem C1_concurrent_claims_not_exclusive :
    (getNextJobCall [jobOld, jobNewer] 5).1 = some jobOld
    ∧ (getNextJobCall ((getNextJobCall [jobOld, jobNewer] 5).2) 5).1 = some jobOld
    ∧ jobOld.id = 7 := by
  refine ⟨rfl, rfl, rfl⟩

/-- Claim C2.  The claim states that getNextJob returns the oldest eligible
pending job and, as a postcondition, that job's status becomes processing
with started_at = now.  The selection half matches the code: on a table
holding a completed job, two due pending jobs, a pending job scheduled in
the future and a pending job with exhausted attempts, the call at time 5
returns the older of the two eligible rows.  The postcondition half is
refuted: the call leaves the table unchanged, the returned job is still
pending and its started_at is still null. -/
theorem C2_getNextJob_selects_but_does_not_claim :
    (getNextJobCall [jobDone, jobNewer, jobOld, jobLate, jobSpent] 5).1 = some jobOld
    ∧ (getNextJobCall [jobDone, jobNewer, jobOld, jobLate, jobSpent] 5).2
        = [jobDone, jobNewer, jobOld, jobLate, jobSpent]
    ∧ jobOld.status = JobStatus.pending
    ∧ jobOld.started_at = none
    ∧ jobOld.created_at < jobNewer.created_at := by
  refine ⟨rfl, rfl, rfl, rfl, by decide⟩

/-- Claim C4, counterexample.  The claim states that a transition out of a
terminal document state is rejected and reported rather than applied.  On a
document in the terminal completed state, db.updateDocumentStatus with
target processing simply rewrites the row: the status becomes processing. -/
theorem C4_terminal_transition_applied :
    completedDoc.status = DocStatus.completed
    ∧ updateDocumentStatus [completedDoc] 1 DocStatus.processing 5
        = [{ completedDoc with status := DocStatus.processing, updated_at := 5 }]
    ∧ (updateDocumentStatusDoc 5 DocStatus.processing completedDoc).status
        = DocStatus.processing := by
  refine ⟨rfl, ?_, rfl⟩
  decide

/-- Claim C4, amended.  db.updateDocumentStatus validates nothing: it never
reads the current status, so every requested transition, including one out
of a terminal state, is applied, and no invariant violation is reported.
Stated here for the terminal case the original claim singles out: a document
whose status is completed or failed still ends at the requested status. -/
theorem C4_transitions_applied_unconditionally (d : Document) (s : DocStatus) (now : Nat)
    (h : d.status = DocStatus.completed ∨ d.status = DocStatus.failed) :
    (updateDocumentStatusDoc now s d).status = s := by
  rfl

/-- Witness for C4_transitions_applied_unconditionally at the sample
completed document. -/
theorem C4_transitions_applied_witness :
    (completedDoc.status = DocStatus.completed ∨ completedDoc.status = DocStatus.failed)
    ∧ (updateDocumentStatusDoc 5 DocStatus.processing completedDoc).status
        = DocStatus.processing :=
  ⟨Or.inl rfl,
    C4_transitions_applied_unconditionally completedDoc DocStatus.processing 5 (Or.inl rfl)⟩

/-- Claim C5, counterexample.  The claim states that a review submit on a
document that is not awaiting_review is rejected with an error and performs
no writes.  On the sample document already in the completed state, onSubmit
runs to completion: it inserts one feedback record for the changed field and
rewrites the document row (updated_at moves to the submit time), so the call
is re-processed, not rejected. -/
theorem C5_completed_review_not_rejected :
    completedDoc.status = DocStatus.completed
    ∧ (onSubmit [completedDoc] completedDoc [fieldA] (fun _ => "y") 4 9).feedback
        = [{ document_id := 1, field_name := "a", ai_extracted_value := "x",
             human_corrected_value := "y", reviewer_id := 4 }]
    ∧ (onSubmit [completedDoc] completedDoc [fieldA] (fun _ => "y") 4 9).docs
        ≠ [completedDoc] := by
  refine ⟨rfl, by decide, by decide⟩

/-- Claim C5, amended.  ReviewInterface.onSubmit checks no precondition on
the document's status: the handler never reads it, so a submit behaves
identically whatever the status is; a re-submit on a completed document is
re-processed exactly as a first submit on an awaiting_review document, with
the same feedback records, the same table write and the same audit entry. -/
theorem C5_onSubmit_ignores_document_status (docs : List Document) (doc : Document)
    (extracted : List ExtractedData) (data : String → String) (reviewerId now : Nat)
    (s₁ s₂ : DocStatus) :
    onSubmit docs { doc with status := s₁ } extracted data reviewerId now
      = onSubmit docs { doc with status := s₂ } extracted data reviewerId now := by
  rfl

/-- Claim C7, counterexample.  The claim states that every call of
db.updateDocumentStatus preserves the biconditional processed_at set iff
status terminal.  The code never clears processed_at, so moving the sample
completed document (processed_at set) to processing leaves processed_at set
on a non-terminal document, and the biconditional fails after the call. -/
theorem C7_processed_at_not_cleared :
    processedAtInv completedDoc
    ∧ ¬ processedAtInv (updateDocumentStatusDoc 5 DocStatus.processing completedDoc) := by
  constructor
  · decide
  · decide

/-- Claim C7, amended.  db.updateDocumentStatus sets processed_at exactly
when the target status is completed or failed and never clears it, so the
biconditional processed_at set iff status terminal holds after the call
exactly when the target is terminal or the document's processed_at was
unset; a terminal document moved to a non-terminal status keeps its
processed_at and violates the invariant. -/
theorem C7_processed_at_iff_characterised (d : Document) (s : DocStatus) (now : Nat) :
    (processedAtInv (updateDocumentStatusDoc now s d)
      ↔ ((s = DocStatus.completed ∨ s = DocStatus.failed) ∨ d.processed_at = none))
    ∧ (updateDocumentStatusDoc now s d).processed_at
        = (if s = DocStatus.completed ∨ s = DocStatus.failed then some now
           else d.processed_at) := by
  constructor
  · unfold processedAtInv updateDocumentStatusDoc
    by_cases h : s = DocStatus.completed ∨ s = DocStatus.failed
    · simp [h]
    · rcases hd : d.processed_at with _ | t
      · simp [h, hd]
      · simp [h, hd]
  · rfl

/-- Claim C10.  Frame property of db.updateDocumentStatus called without a
metadata argument: the table keeps its length, every row whose id differs
from the target is unchanged, and the matching row changes exactly its
status (to the requested value), its updated_at (to now) and, precisely when
the requested status is completed or failed, its processed_at; filename,
file_path, uploaded_by, file_size, created_at and confidence_score are
untouched. -/
theorem C10_update_status_frame (docs : List Document) (id : Nat) (s : DocStatus)
    (now i : Nat) :
    (updateDocumentStatus docs id s now).length = docs.length
    ∧ (∀ d, docs[i]? = some d → d.id ≠ id →
        (updateDocumentStatus docs id s now)[i]? = some d)
    ∧ (∀ d, docs[i]? = some d → d.id = id →
        (updateDocumentStatus docs id s now)[i]? = some (updateDocumentStatusDoc now s d))
    ∧ (∀ d : Document,
        (updateDocumentStatusDoc now s d).filename = d.filename
        ∧ (updateDocumentStatusDoc now s d).file_path = d.file_path
        ∧ (updateDocumentStatusDoc now s d).uploaded_by = d.uploaded_by
        ∧ (updateDocumentStatusDoc now s d).file_size = d.file_size
        ∧ (updateDocumentStatusDoc now s d).created_at = d.created_at
        ∧ (updateDocumentStatusDoc now s d).confidence_score = d.confidence_score
        ∧ (updateDocumentStatusDoc now s d).status = s
        ∧ (updateDocumentStatusDoc now s d).updated_at = now
        ∧ (updateDocumentStatusDoc now s d).processed_at
            = (if s = DocStatus.completed ∨ s = DocStatus.failed then some now
               else d.processed_at)) := by
  refine ⟨by simp [updateDocumentStatus], ?_, ?_, ?_⟩
  · intro d hd hne
    simp [updateDocumentStatus, List.getElem?_map, hd, hne]
  · intro d hd heq
    simp [updateDocumentStatus, List.getElem?_map, hd, heq]
  · intro d
    refine ⟨rfl, rfl, rfl, rfl, rfl, rfl, rfl, rfl, rfl⟩

/-- Claim C3.  Modelled from the spec (the fail operation of the job queue
lives in external n8n workflows, not in src): fail increments attempts by
one; when the new count reaches max_attempts the job is failed terminally
(attempts lands exactly on max_attempts), can never again satisfy the claim
eligibility filter, and the owning document is moved to failed through
db.updateDocumentStatus; otherwise the job reverts to pending rescheduled at
now plus backoff of the new count, where backoff is non-decreasing in the
attempt count and bounded by the fixed cap. -/
theorem C3_fail_retries_with_backoff_and_dead_letters (j : Job) (docs : List Document)
    (now base cap : Nat) (msg : String) (t a : Nat) (d : Document)
    (h : j.attempts < j.max_attempts) :
    (fail now base cap msg j docs).1.attempts = j.attempts + 1
    ∧ (j.max_attempts ≤ j.attempts + 1 →
        (fail now base cap msg j docs).1.status = JobStatus.failed
        ∧ (fail now base cap msg j docs).1.attempts = j.max_attempts
        ∧ jobEligible t (fail now base cap msg j docs).1 = false
        ∧ (d ∈ docs → d.id = j.document_id →
            updateDocumentStatusDoc now DocStatus.failed d ∈ (fail now base cap msg j docs).2
            ∧ (updateDocumentStatusDoc now DocStatus.failed d).status = DocStatus.failed))
    ∧ (j.attempts + 1 < j.max_attempts →
        (fail now base cap msg j docs).1.status = JobStatus.pending
        ∧ (fail now base cap msg j docs).1.scheduled_for
            = now + backoff base cap (j.attempts + 1)
        ∧ (fail now base cap msg j docs).2 = docs)
    ∧ backoff base cap a ≤ backoff base cap (a + 1)
    ∧ backoff base cap a ≤ cap := by
  refine ⟨?_, ?_, ?_, ?_, ?_⟩
  · unfold fail
    by_cases hterm : j.max_attempts ≤ j.attempts + 1
    · simp [hterm]
    · simp [hterm]
  · intro hterm
    refine ⟨by simp [fail, hterm], by simp [fail, hterm]; omega, ?_, ?_⟩
    · simp [fail, hterm, jobEligible]
    · intro hmem hid
      constructor
      · simp only [fail, hterm, if_pos, updateDocumentStatus]
        have hx := List.mem_map_of_mem
          (fun x => if x.id = j.document_id
            then updateDocumentStatusDoc now DocStatus.failed x else x) hmem
        simpa [hid] using hx
      · rfl
  · intro hlt
    have hterm : ¬ j.max_attempts ≤ j.attempts + 1 := by omega
    refine ⟨by simp [fail, hterm], by simp [fail, hterm], by simp [fail, hterm]⟩
  · refine min_le_min ?_ (Nat.le_refl cap)
    exact Nat.mul_le_mul_left base (Nat.pow_le_pow_right (by norm_num) (Nat.le_succ a))
  · exact Nat.min_le_right _ _

/-- Witness for C3_fail_retries_with_backoff_and_dead_letters: the sample
processing job with attempts 2 of 3 is failed once more at time 10 and
dead-letters with attempts exactly 3, moving its document to failed. -/
theorem C3_fail_witness :
    jobAlmostSpent.attempts < jobAlmostSpent.max_attempts
    ∧ (fail 10 1 60 "boom" jobAlmostSpent [processingDoc]).1.attempts
        = jobAlmostSpent.attempts + 1
    ∧ (fail 10 1 60 "boom" jobAlmostSpent [processingDoc]).1.status = JobStatus.failed
    ∧ (fail 10 1 60 "boom" jobAlmostSpent [processingDoc]).1.attempts
        = jobAlmostSpent.max_attempts
    ∧ jobEligible 99 (fail 10 1 60 "boom" jobAlmostSpent [processingDoc]).1 = false := by
  have hc := C3_fail_retries_with_backoff_and_dead_letters jobAlmostSpent [processingDoc]
    10 1 60 "boom" 99 4 processingDoc (by decide)
  have hterm := hc.2.1 (by decide)
  exact ⟨by decide, hc.1, hterm.1, hterm.2.1, hterm.2.2.1⟩

/-- One upload iteration inserts a document exactly when both the storage
upload and the record creation succeed. -/
theorem processOneFile_docs_length (u now : Nat) (bid rid : Option Nat) (f : FileSpec) :
    (processOneFile u now bid rid f).docs.length
      = if f.uploadResult.isSome && f.createResult.isSome then 1 else 0 := by
  rcases hu : f.uploadResult with _ | p
  · simp [processOneFile, hu]
  · rcases hc : f.createResult with _ | i
    · simp [processOneFile, hu, hc]
    · cases he : f.enqueueOk <;> simp [processOneFile, hu, hc, he]

/-- One upload iteration inserts a job exactly when all three calls
succeed. -/
theorem processOneFile_jobs_length (u now : Nat) (bid rid : Option Nat) (f : FileSpec) :
    (processOneFile u now bid rid f).jobs.length
      = if f.uploadResult.isSome && f.createResult.isSome && f.enqueueOk then 1 else 0 := by
  rcases hu : f.uploadResult with _ | p
  · simp [processOneFile, hu]
  · rcases hc : f.createResult with _ | i
    · simp [processOneFile, hu, hc]
    · cases he : f.enqueueOk <;> simp [processOneFile, hu, hc, he]

/-- One upload iteration ends either in the results array or in the catch
block, never both and never neither. -/
theorem processOneFile_reported_once (u now : Nat) (bid rid : Option Nat) (f : FileSpec) :
    (processOneFile u now bid rid f).results.length
      + (processOneFile u now bid rid f).failures.length = 1 := by
  rcases hu : f.uploadResult with _ | p
  · simp [processOneFile, hu]
  · rcases hc : f.createResult with _ | i
    · simp [processOneFile, hu, hc]
    · cases he : f.enqueueOk <;> simp [processOneFile, hu, hc, he]

/-- Any document one upload iteration inserts carries that file's name and
certifies that its upload and record creation succeeded. -/
theorem processOneFile_docs_mem (u now : Nat) (bid rid : Option Nat) (f : FileSpec)
    (d : Document) (hd : d ∈ (processOneFile u now bid rid f).docs) :
    f.uploadResult.isSome = true ∧ f.createResult.isSome = true ∧ d.filename = f.name := by
  rcases hu : f.uploadResult with _ | p
  · simp [processOneFile, hu] at hd
  · rcases hc : f.createResult with _ | i
    · simp [processOneFile, hu, hc] at hd
    · cases he : f.enqueueOk <;>
        · simp [processOneFile, hu, hc, he] at hd
          subst hd
          exact ⟨rfl, rfl, rfl⟩

/-- Document count of a whole batch: one per file whose upload and record
creation both succeeded. -/
theorem uploadFiles_docs_length (u now : Nat) (bid rid : Option Nat) (files : List FileSpec) :
    (uploadFiles u now bid rid files).docs.length
      = files.countP (fun f => f.uploadResult.isSome && f.createResult.isSome) := by
  induction files with
  | nil => rfl
  | cons f rest ih =>
    simp only [uploadFiles, List.length_append, List.countP_cons, ih,
      processOneFile_docs_length]
    by_cases hf : (f.uploadResult.isSome && f.createResult.isSome) = true
    · simp [hf, Nat.add_comm]
    · simp [hf]

/-- Job count of a whole batch: one per file whose three calls all
succeeded. -/
theorem uploadFiles_jobs_length (u now : Nat) (bid rid : Option Nat) (files : List FileSpec) :
    (uploadFiles u now bid rid files).jobs.length
      = files.countP (fun f => f.uploadResult.isSome && f.createResult.isSome && f.enqueueOk) := by
  induction files with
  | nil => rfl
  | cons f rest ih =>
    simp only [uploadFiles, List.length_append, List.countP_cons, ih,
      processOneFile_jobs_length]
    by_cases hf : (f.uploadResult.isSome && f.createResult.isSome && f.enqueueOk) = true
    · simp [hf, Nat.add_comm]
    · simp [hf]

/-- Every file of a batch is reported exactly once, as a result or as a
failure. -/
theorem uploadFiles_reported_once (u now : Nat) (bid rid : Option Nat) (files : List FileSpec) :
    (uploadFiles u now bid rid files).results.length
      + (uploadFiles u now bid rid files).failures.length = files.length := by
  induction files with
  | nil => rfl
  | cons f rest ih =>
    have h1 := processOneFile_reported_once u now bid rid f
    simp only [uploadFiles, List.length_append, List.length_cons]
    omega

/-- Every document a batch inserts stems from a file whose upload and
record creation succeeded. -/
theorem uploadFiles_docs_mem (u now : Nat) (bid rid : Option Nat) (files : List FileSpec)
    (d : Document) (hd : d ∈ (uploadFiles u now bid rid files).docs) :
    ∃ f ∈ files, f.uploadResult.isSome = true ∧ f.createResult.isSome = true
      ∧ d.filename = f.name := by
  induction files with
  | nil => simp [uploadFiles] at hd
  | cons f rest ih =>
    simp only [uploadFiles, List.mem_append] at hd
    rcases hd with hd | hd
    · exact ⟨f, List.mem_cons_self f rest, processOneFile_docs_mem u now bid rid f d hd⟩
    · obtain ⟨g, hg, hprop⟩ := ih hd
      exact ⟨g, List.mem_cons_of_mem f hg, hprop⟩

/-- Claim C8.  A failure while processing one file of an upload batch does
not abort the batch: in any batch, every file is reported exactly once
(result or failure), the documents and jobs inserted are exactly one per
file whose respective calls succeeded, and every inserted document stems
from a file whose upload and record creation succeeded (so a failed file
leaves no document and no job).  On the sample batch of three files whose
second upload throws, exactly 2 documents and 2 jobs are created, one
failure is reported, and no document carries the failed file's name. -/
theorem C8_upload_failure_isolated (u now : Nat) (bid rid : Option Nat)
    (files : List FileSpec) :
    ((uploadFiles u now bid rid files).docs.length
        = files.countP (fun f => f.uploadResult.isSome && f.createResult.isSome))
    ∧ ((uploadFiles u now bid rid files).jobs.length
        = files.countP (fun f => f.uploadResult.isSome && f.createResult.isSome
            && f.enqueueOk))
    ∧ ((uploadFiles u now bid rid files).results.length
        + (uploadFiles u now bid rid files).failures.length = files.length)
    ∧ (∀ d ∈ (uploadFiles u now bid rid files).docs, ∃ f ∈ files,
        f.uploadResult.isSome = true ∧ f.createResult.isSome = true
          ∧ d.filename = f.name)
    ∧ (uploadFiles u now bid rid threeFiles).docs.length = 2
    ∧ (uploadFiles u now bid rid threeFiles).jobs.length = 2
    ∧ (uploadFiles u now bid rid threeFiles).failures = ["f2"]
    ∧ (∀ d ∈ (uploadFiles u now bid rid threeFiles).docs, d.filename ≠ "f2") := by
  refine ⟨uploadFiles_docs_length u now bid rid files,
    uploadFiles_jobs_length u now bid rid files,
    uploadFiles_reported_once u now bid rid files,
    fun d hd => uploadFiles_docs_mem u now bid rid files d hd, ?_, ?_, ?_, ?_⟩
  · simp [threeFiles, uploadFiles, processOneFile]
  · simp [threeFiles, uploadFiles, processOneFile]
  · simp [threeFiles, uploadFiles, processOneFile]
  · intro d hd
    simp [threeFiles, uploadFiles, processOneFile, mkUploadDoc] at hd
    rcases hd with hd | hd <;> simp [hd, mkUploadDoc]

/-- Counting fields by a name that occurs nowhere in the list gives zero,
whatever further condition is conjoined. -/
theorem countP_field_name_zero (l : List ExtractedData) (nm : String)
    (p : ExtractedData → Bool) (h : nm ∉ l.map (fun g => g.field_name)) :
    l.countP (fun g => (g.field_name == nm) && p g) = 0 := by
  induction l with
  | nil => rfl
  | cons g rest ih =>
    simp only [List.map_cons, List.mem_cons, not_or] at h
    have hne : (g.field_name == nm) = false := by
      simpa [beq_iff_eq] using fun he => h.1 he.symm
    simp [List.countP_cons, hne, ih h.2]

/-- With pairwise distinct field names, counting fields by the name of a
member f reduces to the condition at f alone. -/
theorem countP_field_name_of_nodup (l : List ExtractedData) (f : ExtractedData)
    (p : ExtractedData → Bool) (hn : (l.map (fun g => g.field_name)).Nodup)
    (hf : f ∈ l) :
    l.countP (fun g => (g.field_name == f.field_name) && p g)
      = if p f then 1 else 0 := by
  induction l with
  | nil => cases hf
  | cons g rest ih =>
    simp only [List.map_cons, List.nodup_cons] at hn
    rcases List.mem_cons.mp hf with rfl | hfr
    · have hz := countP_field_name_zero rest f.field_name p hn.1
      simp [List.countP_cons, hz]
    · have hgne : (g.field_name == f.field_name) = false := by
        have : f.field_name ∈ rest.map (fun g => g.field_name) :=
          List.mem_map_of_mem (fun g => g.field_name) hfr
        refine beq_eq_false_iff_ne.mpr ?_
        intro he
        rw [he] at hn
        exact hn.1 this
      simp [List.countP_cons, hgne, ih hn.2 hfr]

/-- Claim C6.  ReviewInterface.onSubmit, run on a document whose extracted
fields have pairwise distinct names, creates for each extracted field
exactly one feedback record when the submitted value differs from the
stored field_value and none when it does not; each record carries the
stored value as ai value and the submitted value as human value; an
all-identical submission creates no record at all; the document row is
rewritten to completed; and the single audit entry's details count exactly
the changed fields. -/
theorem C6_feedback_records_iff_changed (docs : List Document) (doc : Document)
    (extracted : List ExtractedData) (data : String → String) (reviewerId now : Nat)
    (hn : (extracted.map (fun g => g.field_name)).Nodup) :
    (∀ f ∈ extracted,
        (onSubmit docs doc extracted data reviewerId now).feedback.countP
            (fun rec => rec.field_name == f.field_name)
          = if data f.field_name = f.field_value then 0 else 1)
    ∧ (∀ f ∈ extracted, data f.field_name ≠ f.field_value →
        ({ document_id := doc.id, field_name := f.field_name,
           ai_extracted_value := f.field_value,
           human_corrected_value := data f.field_name,
           reviewer_id := reviewerId } : AIFeedbackLog)
          ∈ (onSubmit docs doc extracted data reviewerId now).feedback)
    ∧ ((∀ f ∈ extracted, data f.field_name = f.field_value) →
        (onSubmit docs doc extracted data reviewerId now).feedback = [])
    ∧ (∀ d ∈ docs, d.id = doc.id →
        updateDocumentStatusDoc now DocStatus.completed d
            ∈ (onSubmit docs doc extracted data reviewerId now).docs
        ∧ (updateDocumentStatusDoc now DocStatus.completed d).status = DocStatus.completed)
    ∧ (onSubmit docs doc extracted data reviewerId now).audit.action = "DOCUMENT_REVIEWED"
    ∧ (onSubmit docs doc extracted data reviewerId now).audit.details.changes_made
        = extracted.countP (fun f => data f.field_name != f.field_value) := by
  refine ⟨?_, ?_, ?_, ?_, rfl, ?_⟩
  · intro f hf
    have h1 : (onSubmit docs doc extracted data reviewerId now).feedback.countP
        (fun rec => rec.field_name == f.field_name)
      = extracted.countP (fun g =>
          (g.field_name == f.field_name) && (data g.field_name != g.field_value)) := by
      simp only [onSubmit, List.countP_map, List.countP_filter]
      rfl
    rw [h1, countP_field_name_of_nodup extracted f _ hn hf]
    by_cases he : data f.field_name = f.field_value
    · simp [he]
    · simp [he]
  · intro f hf hne
    simp only [onSubmit]
    refine List.mem_map_of_mem _ ?_
    exact List.mem_filter.mpr ⟨hf, by simpa [bne_iff_ne] using hne⟩
  · intro hall
    simp only [onSubmit]
    have : extracted.filter (fun g => data g.field_name != g.field_value) = [] :=
      List.filter_eq_nil_iff.mpr (fun g hg => by simp [hall g hg])
    simp [this]
  · intro d hd hid
    constructor
    · simp only [onSubmit, updateDocumentStatus]
      have hx := List.mem_map_of_mem
        (fun x => if x.id = doc.id
          then updateDocumentStatusDoc now DocStatus.completed x else x) hd
      simpa [hid] using hx
    · rfl
  · simp only [onSubmit, List.countP_eq_length_filter]

/-- Witness for C6_feedback_records_iff_changed: a one-field review of the
sample awaiting document where the submitted value differs from the stored
one yields exactly one feedback record and an audit count of one. -/
theorem C6_feedback_records_witness :
    ([fieldA].map (fun g => g.field_name)).Nodup
    ∧ (onSubmit [awaitingDoc] awaitingDoc [fieldA] (fun _ => "y") 4 9).feedback.countP
        (fun rec => rec.field_name == fieldA.field_name) = 1
    ∧ (onSubmit [awaitingDoc] awaitingDoc [fieldA] (fun _ => "y") 4 9).audit.details.changes_made
        = 1 := by
  have hc := C6_feedback_records_iff_changed [awaitingDoc] awaitingDoc [fieldA]
    (fun _ => "y") 4 9 (by decide)
  refine ⟨by decide, ?_, ?_⟩
  · have h1 := hc.1 fieldA (List.mem_cons_self fieldA [])
    rw [h1]
    decide
  · have h2 := hc.2.2.2.2.2
    rw [h2]
    decide

/-- Neither update of db.activatePrompt touches a row's id. -/
theorem archiveStep_id (name : String) (q : Prompt) : (archiveStep name q).id = q.id := by
  unfold archiveStep
  split <;> rfl

/-- The archive update does not touch a row's prompt_name. -/
theorem archiveStep_name (name : String) (q : Prompt) :
    (archiveStep name q).prompt_name = q.prompt_name := by
  unfold archiveStep
  split <;> rfl

/-- The activate update does not touch a row's prompt_name. -/
theorem activateStep_name (id now : Nat) (q : Prompt) :
    (activateStep id now q).prompt_name = q.prompt_name := by
  unfold activateStep
  split <;> rfl

/-- After both updates of db.activatePrompt, a row is the active version of
the given name exactly when it is the targeted row and carries that name:
every previously active row of the name was archived first, and only the
row with the target id was then activated. -/
theorem actArch_active_iff (id now : Nat) (name : String) (q : Prompt) :
    activeFor name (activateStep id now (archiveStep name q)) = true
      ↔ (q.id = id ∧ q.prompt_name = name) := by
  unfold activeFor activateStep archiveStep
  by_cases harch : q.prompt_name = name ∧ q.status = PromptStatus.active
  · by_cases hqid : q.id = id
    · simp [harch, hqid, harch.1]
    · simp [harch, hqid]
  · by_cases hqid : q.id = id
    · simp [harch, hqid]
    · simp [harch, hqid]

/-- Both updates of db.activatePrompt applied to the targeted row yield that
row with status active and updated_at now, whatever its previous status. -/
theorem actArch_target (id now : Nat) (name : String) (p : Prompt) (hid : p.id = id) :
    activateStep id now (archiveStep name p)
      = { p with status := PromptStatus.active, updated_at := now } := by
  unfold archiveStep activateStep
  by_cases harch : p.prompt_name = name ∧ p.status = PromptStatus.active
  · simp [harch, hid]
  · simp [harch, hid]

/-- A row whose id is not the target and whose name the activation does not
concern keeps its visibility under any other name's active filter, and is
untouched whenever it is active under another name. -/
theorem actArch_keep (id now : Nat) (name n : String) (hne : n ≠ name) (q : Prompt)
    (hqid : ¬ q.id = id) :
    activeFor n (activateStep id now (archiveStep name q)) = activeFor n q
      ∧ (activeFor n q = true → activateStep id now (archiveStep name q) = q) := by
  unfold activeFor activateStep archiveStep
  by_cases harch : q.prompt_name = name ∧ q.status = PromptStatus.active
  · constructor
    · simp [harch, hqid, harch.1, Ne.symm hne]
    · intro hact
      exfalso
      rw [decide_eq_true_eq] at hact
      exact hne (by rw [← hact.1, harch.1])
  · constructor
    · simp [harch, hqid]
    · intro _
      simp [harch, hqid]

/-- Filtering a list of prompts with pairwise distinct ids by a predicate
that holds exactly on the id of a member p returns the singleton p. -/
theorem filter_eq_singleton_of_nodup (l : List Prompt) (pr : Prompt → Bool) (p : Prompt)
    (hn : (l.map (fun q => q.id)).Nodup) (hp : p ∈ l) (hpr : pr p = true)
    (hiff : ∀ q ∈ l, (pr q = true ↔ q.id = p.id)) :
    l.filter pr = [p] := by
  induction l with
  | nil => cases hp
  | cons g rest ih =>
    simp only [List.map_cons, List.nodup_cons] at hn
    rcases List.mem_cons.mp hp with rfl | hpr2
    · rw [List.filter_cons, if_pos (by simp [hpr])]
      have hnil : rest.filter pr = [] := by
        refine List.filter_eq_nil_iff.mpr ?_
        intro q hq hqt
        have hqid : q.id = p.id := (hiff q (List.mem_cons_of_mem p hq)).mp hqt
        apply hn.1
        rw [← hqid]
        exact List.mem_map_of_mem (fun r => r.id) hq
      rw [hnil]
    · have hgf : pr g = false := by
        by_contra hg
        have hgt : pr g = true := by
          cases hgb : pr g
          · exact absurd hgb hg
          · rfl
        have hgid : g.id = p.id := (hiff g (List.mem_cons_self g rest)).mp hgt
        apply hn.1
        rw [hgid]
        exact List.mem_map_of_mem (fun r => r.id) hpr2
      rw [List.filter_cons, if_neg (by simp [hgf])]
      exact ih hn.2 hpr2 (fun q hq => hiff q (List.mem_cons_of_mem g hq))

/-- Claim C9.  On a prompt table with pairwise distinct row ids, a
sequential call of db.activatePrompt targeting a version of the given name
leaves exactly one active version of that name, namely the target (archive
of the previously active version happens first, activation of the target
second); the active versions of every other name are untouched; and the
invariant of at most one active version per name is preserved for every
name. -/
theorem C9_activate_unique_active (prompts : List Prompt) (id : Nat) (name : String)
    (now : Nat) (p : Prompt) (hn : (prompts.map (fun q => q.id)).Nodup)
    (hp : p ∈ prompts) (hid : p.id = id) (hname : p.prompt_name = name) :
    ((activatePrompt prompts id name now).filter (activeFor name)
        = [{ p with status := PromptStatus.active, updated_at := now }])
    ∧ (∀ n, n ≠ name →
        (activatePrompt prompts id name now).filter (activeFor n)
          = prompts.filter (activeFor n))
    ∧ (∀ n, (prompts.filter (activeFor n)).length ≤ 1 →
        ((activatePrompt prompts id name now).filter (activeFor n)).length ≤ 1) := by
  have hmap : activatePrompt prompts id name now
      = prompts.map (fun q => activateStep id now (archiveStep name q)) := by
    unfold activatePrompt
    rw [List.map_map]
    rfl
  have part1 : (activatePrompt prompts id name now).filter (activeFor name)
      = [{ p with status := PromptStatus.active, updated_at := now }] := by
    rw [hmap, List.filter_map]
    have hf : prompts.filter
        ((activeFor name) ∘ fun q => activateStep id now (archiveStep name q)) = [p] := by
      apply filter_eq_singleton_of_nodup prompts _ p hn hp
      · exact (actArch_active_iff id now name p).mpr ⟨hid, hname⟩
      · intro q hq
        rw [Function.comp_apply, actArch_active_iff]
        constructor
        · rintro ⟨hq1, _⟩
          rw [hq1, hid]
        · intro hqp
          have hqe : q = p := List.inj_on_of_nodup_map hn hq hp hqp
          exact ⟨by rw [hqe, hid], by rw [hqe, hname]⟩
    rw [hf, List.map_cons, List.map_nil, actArch_target id now name p hid]
  have part2 : ∀ n, n ≠ name →
      (activatePrompt prompts id name now).filter (activeFor n)
        = prompts.filter (activeFor n) := by
    intro n hne
    rw [hmap, List.filter_map]
    have hcong : prompts.filter
        ((activeFor n) ∘ fun q => activateStep id now (archiveStep name q))
        = prompts.filter (activeFor n) := by
      apply List.filter_congr
      intro q hq
      rw [Function.comp_apply]
      by_cases hqid : q.id = id
      · have hqe : q = p := List.inj_on_of_nodup_map hn hq hp (by rw [hqid, hid])
        have h1 : activeFor n q = false := by
          rw [hqe]
          unfold activeFor
          simp [hname, Ne.symm hne]
        have h2 : activeFor n (activateStep id now (archiveStep name q)) = false := by
          have hpn : (activateStep id now (archiveStep name q)).prompt_name
              = q.prompt_name := by
            rw [activateStep_name, archiveStep_name]
          unfold activeFor
          rw [decide_eq_false_iff_not]
          intro hcc
          rw [hpn, hqe, hname] at hcc
          exact hne hcc.1.symm
        rw [h1, h2]
      · exact (actArch_keep id now name n hne q hqid).1
    rw [hcong]
    have hfix : ∀ q ∈ prompts.filter (activeFor n),
        activateStep id now (archiveStep name q) = q := by
      intro q hq
      obtain ⟨hqmem, hqact⟩ := List.mem_filter.mp hq
      by_cases hqid : q.id = id
      · exfalso
        have hqe : q = p := List.inj_on_of_nodup_map hn hqmem hp (by rw [hqid, hid])
        rw [hqe] at hqact
        unfold activeFor at hqact
        rw [decide_eq_true_eq] at hqact
        exact hne (by rw [← hqact.1, hname])
      · exact (actArch_keep id now name n hne q hqid).2 hqact
    rw [List.map_congr_left hfix]
    simp
  refine ⟨part1, part2, ?_⟩
  intro n hlen
  by_cases hcase : n = name
  · rw [hcase, part1]
    simp
  · rw [part2 n hcase]
    exact hlen

/-- Witness for C9_activate_unique_active: activating draft version 2 of
the sample prompt name while version 1 is active leaves exactly version 2
active for that name. -/
theorem C9_activate_unique_active_witness :
    (([promptV1, promptV2, promptOther].map (fun q => q.id)).Nodup)
    ∧ ((activatePrompt [promptV1, promptV2, promptOther] 52
          "extract_review_report_data" 7).filter (activeFor "extract_review_report_data")
        = [{ promptV2 with status := PromptStatus.active, updated_at := 7 }]) := by
  have hc := C9_activate_unique_active [promptV1, promptV2, promptOther] 52
    "extract_review_report_data" 7 promptV2 (by decide) (by decide) (by decide) (by decide)
  exact ⟨by decide, hc.1⟩

/-- The job a fold of olderJob returns is the accumulator or a list
member. -/
theorem foldl_olderJob_some (l : List Job) (j : Job) :
    ∀ acc : Option Job, l.foldl olderJob acc = some j → acc = some j ∨ j ∈ l := by
  induction l with
  | nil => exact fun acc h => Or.inl h
  | cons g rest ih =>
    intro acc h
    rcases ih (olderJob acc g) h with hh | hh
    · rcases acc with _ | k
      · simp only [olderJob] at hh
        exact Or.inr (by rw [← Option.some_inj.mp hh]; exact List.mem_cons_self g rest)
      · simp only [olderJob] at hh
        by_cases hlt : g.created_at < k.created_at
        · rw [if_pos hlt] at hh
          exact Or.inr (by rw [← Option.some_inj.mp hh]; exact List.mem_cons_self g rest)
        · rw [if_neg hlt] at hh
          exact Or.inl hh
    · exact Or.inr (List.mem_cons_of_mem g hh)

/-- The job a fold of olderJob returns has created_at at most that of the
accumulator and of every list member. -/
theorem foldl_olderJob_le (l : List Job) (j : Job) :
    ∀ acc : Option Job, l.foldl olderJob acc = some j →
      (∀ k, acc = some k → j.created_at ≤ k.created_at)
      ∧ (∀ k ∈ l, j.created_at ≤ k.created_at) := by
  induction l with
  | nil =>
    intro acc h
    refine ⟨fun k hk => ?_, fun k hk => absurd hk (List.not_mem_nil k)⟩
    have hacc : acc = some j := h
    rw [hacc] at hk
    rw [← Option.some_inj.mp hk]
  | cons g rest ih =>
    intro acc h
    have hstep := ih (olderJob acc g) h
    have hg : j.created_at ≤ g.created_at := by
      rcases acc with _ | k
      · exact hstep.1 g rfl
      · simp only [olderJob] at hstep
        by_cases hlt : g.created_at < k.created_at
        · exact hstep.1 g (by rw [if_pos hlt])
        · exact Nat.le_trans (hstep.1 k (by rw [if_neg hlt])) (Nat.le_of_not_lt hlt)
    refine ⟨fun k hk => ?_, fun k hk => ?_⟩
    · rcases hk with rfl
      simp only [olderJob] at hstep
      by_cases hlt : g.created_at < k.created_at
      · exact Nat.le_trans (hstep.1 g (by rw [if_pos hlt])) (Nat.le_of_lt hlt)
      · exact hstep.1 k (by rw [if_neg hlt])
    · rcases List.mem_cons.mp hk with rfl | hk2
      · exact hg
      · exact hstep.2 k hk2

/-- A fold of olderJob starting from a job never comes back empty. -/
theorem foldl_olderJob_none (l : List Job) :
    ∀ acc : Option Job, l.foldl olderJob acc = none → acc = none ∧ l = [] := by
  induction l with
  | nil => exact fun acc h => ⟨h, rfl⟩
  | cons g rest ih =>
    intro acc h
    have hstep := ih (olderJob acc g) h
    exfalso
    rcases acc with _ | k
    · simp [olderJob] at hstep
    · rcases hstep with ⟨h1, _⟩
      simp only [olderJob] at h1
      by_cases hlt : g.created_at < k.created_at
      · rw [if_pos hlt] at h1
        cases h1
      · rw [if_neg hlt] at h1
        cases h1

/-- When db.getNextJob returns a job, that job is an eligible row of the
table and no eligible row was created earlier: the FIFO selection half of
the spec's claimNext matches the code. -/
theorem getNextJob_some_spec (jobs : List Job) (now : Nat) (j : Job)
    (h : getNextJob jobs now = some j) :
    j ∈ jobs ∧ jobEligible now j = true
      ∧ ∀ k ∈ jobs, jobEligible now k = true → j.created_at ≤ k.created_at := by
  unfold getNextJob at h
  have hmem : j ∈ jobs.filter (jobEligible now) := by
    rcases foldl_olderJob_some (jobs.filter (jobEligible now)) j none h with hh | hh
    · cases hh
    · exact hh
  obtain ⟨hj, hel⟩ := List.mem_filter.mp hmem
  refine ⟨hj, hel, fun k hk hke => ?_⟩
  exact (foldl_olderJob_le (jobs.filter (jobEligible now)) j none h).2 k
    (List.mem_filter.mpr ⟨hk, hke⟩)

/-- db.getNextJob answers none available exactly when no row of the table
passes the eligibility filter. -/
theorem getNextJob_none_iff (jobs : List Job) (now : Nat) :
    getNextJob jobs now = none ↔ ∀ j ∈ jobs, ¬ jobEligible now j = true := by
  unfold getNextJob
  constructor
  · intro h
    have := (foldl_olderJob_none (jobs.filter (jobEligible now)) none h).2
    exact List.filter_eq_nil_iff.mp this
  · intro h
    rw [List.filter_eq_nil_iff.mpr h]
    rfl

/-- A whole call of db.getNextJob leaves the job table exactly as it was:
the source sends a single select statement and nothing else, which is what
makes the exclusivity claim fail. -/
theorem getNextJobCall_table_unchanged (jobs : List Job) (now : Nat) :
    (getNextJobCall jobs now).2 = jobs :=
  rfl

end Pdfkar
